import Mathlib

/-!
Verification development for the CODAL `SoundEmojiSynthesizer` component
(repository file `src/inc/SoundEmojiSynthesizer.h`).

The repository ships only the class declaration header: the member function
bodies (`SoundEmojiSynthesizer.cpp`) are not part of the sources.  The data
model (structs, fields, constants, member signatures) below is translated from
the header; every behavioural definition is modelled from the specification's
description of the algorithm, and is marked `Modelled from the spec:` with the
name of the missing member it stands for.

Representation choices:
  * `float` quantities (frequency, volume, duration, phase position) are
    modelled as rationals (`ℚ`).
  * the function pointers `TonePrintFunction` / `ToneEffectFunction` are
    modelled as Lean functions; the opaque `void* parameter` of a `TonePrint`
    is folded into the closure.
  * the active effect is represented as an `Option SoundEffect` together with
    the list of entries not yet begun (`effectBuffer`), which is the same
    information as the header's pointer into the current effect sequence.
-/

set_option allowUnsafeReducibility true

attribute [semireducible] Rat.mul Rat.add Rat.inv Rat.sub Rat.div

namespace SoundEmoji

/-- Header constant `EMOJI_SYNTHESIZER_SAMPLE_RATE` (44100). -/
def EMOJI_SYNTHESIZER_SAMPLE_RATE : Int := 44100

/-- Header constant `EMOJI_SYNTHESIZER_TONE_WIDTH` (1024): the cyclic width of
the tone-print phase domain. -/
def EMOJI_SYNTHESIZER_TONE_WIDTH : Nat := 1024

/-- Header constant `EMOJI_SYNTHESIZER_BUFFER_SIZE` (512). -/
def EMOJI_SYNTHESIZER_BUFFER_SIZE : Int := 512

/-- Modelled from the spec: the "evaluator max amplitude" used in the scaling
step.  The header's `TonePrintFunction` returns a `uint16_t`, so the maximum
raw amplitude is taken as the full `uint16_t` range. -/
def EMOJI_SYNTHESIZER_TONE_PRINT_MAX : ℚ := 65535

/-- Modelled from the spec: result code for success (`DEVICE_OK`).  The value
comes from the CODAL framework, which is outside this repository; only its
distinctness from the error code matters here. -/
def DEVICE_OK : Int := 0

/-- Modelled from the spec: result code for a rejected parameter
(`DEVICE_INVALID_PARAMETER`), from the CODAL framework outside this
repository. -/
def DEVICE_INVALID_PARAMETER : Int := -1003

/-- Header struct `TonePrint`: a deterministic waveform function over the
integer phase domain.  The `void* parameter` is folded into the closure. -/
structure TonePrint where
  print : Nat → Nat

/-- Header struct `ToneEffect`: an optional per-step modulation function with
a two-element float parameter vector.  The function receives the engine's
instantaneous frequency and volume together with the parameters and returns
the mutated frequency and volume (`effect = none` models a NULL function
pointer). -/
structure ToneEffect where
  effect : Option ((ℚ × ℚ) → (ℚ × ℚ) → ℚ × ℚ)
  parameter : ℚ × ℚ

/-- Header struct `SoundEffect`: one record of the packed effect sequence. -/
structure SoundEffect where
  frequency : ℚ
  volume : ℚ
  duration : ℚ
  tone : TonePrint
  effects : List ToneEffect
  steps : Nat

/-- Size in bytes of one packed `SoundEffect` record on the 32-bit target the
header is written for (all floats and pointers are 4 bytes wide):
three floats (12) + `TonePrint` (8) + three `ToneEffect`s (12 each) +
`int steps` (4) = 60. -/
def sizeofSoundEffect : Nat := 60

/-- Modelled from the spec: the `ManagedBuffer` handed to `play()` is an
opaque block of bytes, reinterpreted as a tightly packed array of
`SoundEffect` records.  We carry the raw byte length together with the decoded
records (for a well-formed block, `length = sizeofSoundEffect * records.length`). -/
structure ManagedBuffer where
  length : Nat
  records : List SoundEffect

/-- The mutable per-sample render state of the synthesizer, together with the
configuration the per-sample algorithm reads (header fields `sampleRate`,
`sampleRange`, `orMask`, `frequency`, `volume`, `samplesToWrite`,
`samplesWritten`, `samplesPerStep`, `position`, `step`). -/
@[ext]
structure RenderCore where
  sampleRate : Int
  sampleRange : Nat
  orMask : Nat
  frequency : ℚ
  volume : ℚ
  samplesToWrite : Nat
  samplesWritten : Nat
  samplesPerStep : Nat
  position : ℚ
  step : Nat

/-- The full synthesizer state (header class `SoundEmojiSynthesizer`).
`effect` is the active entry (`none` when idle), `effectBuffer` holds the
entries of the current sequence not yet begun, and `active` models the
`EMOJI_SYNTHESIZER_STATUS_ACTIVE` status flag. -/
@[ext]
structure SynthState where
  effectBuffer : List SoundEffect
  effect : Option SoundEffect
  bufferSize : Int
  active : Bool
  core : RenderCore

/-- The shared zero-length buffer (`emptyBuffer`) returned by an idle
`pull()`. -/
def emptyBuffer : List Nat := []

/-- Modelled from the spec: `SoundEmojiSynthesizer::determineSampleCount`,
the samples-required computation `round(duration_ms * sampleRate / 1000)`
(the header declares the time argument in microseconds; the spec states the
formula over milliseconds, used here directly).  A negative product yields
zero samples. -/
def determineSampleCount (rate : Int) (durationMs : ℚ) : Nat :=
  (round (durationMs * (rate : ℚ) / 1000)).toNat

/-- Modelled from the spec: wrapping of the phase accumulator modulo the
cyclic domain width `EMOJI_SYNTHESIZER_TONE_WIDTH`. -/
def wrapPosition (x : ℚ) : ℚ :=
  x - (EMOJI_SYNTHESIZER_TONE_WIDTH : ℚ) * ⌊x / (EMOJI_SYNTHESIZER_TONE_WIDTH : ℚ)⌋

/-- Modelled from the spec: sequential application of the (up to three) tone
effects at a step boundary, in declared array order; a `none` entry is
skipped, and later effects observe the mutations of earlier ones. -/
def applyToneEffects (fv : ℚ × ℚ) (effs : List ToneEffect) : ℚ × ℚ :=
  effs.foldl (fun p te => match te.effect with
    | none => p
    | some f => f p te.parameter) fv

/-- Modelled from the spec: the body of the per-sample algorithm of the
Sample Generator / Step Scheduler, for one emitted sample of the active
effect `e`:
1. if samples-written is an exact multiple of samples-per-step and the final
   step has not been reached, apply the tone effects and advance the step
   index (this covers the start of the effect, where samples-written is 0);
2. evaluate the tone print at the integer phase position, scale by
   (instantaneous volume / evaluator max amplitude) * sample range, clip to
   [0, sampleRange] and OR in the configured mask;
3. advance the phase position by frequency * width / sampleRate (zero for a
   non-positive frequency), wrapped modulo the width;
4. increment samples-written. -/
def emitOne (c : RenderCore) (e : SoundEffect) : RenderCore × Nat :=
  let c1 :=
    if c.samplesWritten % c.samplesPerStep = 0 ∧ c.step + 1 < e.steps then
      let fv := applyToneEffects (c.frequency, c.volume) e.effects
      { c with frequency := fv.1, volume := fv.2, step := c.step + 1 }
    else c
  let raw : Nat := e.tone.print (⌊c1.position⌋).toNat
  let scaled : ℚ := (raw : ℚ) * (c1.volume / EMOJI_SYNTHESIZER_TONE_PRINT_MAX) * (c1.sampleRange : ℚ)
  let sample : Nat := (min (⌊scaled⌋).toNat c1.sampleRange) ||| c1.orMask
  let delta : ℚ :=
    if c1.frequency ≤ 0 then 0
    else c1.frequency * (EMOJI_SYNTHESIZER_TONE_WIDTH : ℚ) / (c1.sampleRate : ℚ)
  ({ c1 with
      position := wrapPosition (c1.position + delta),
      samplesWritten := c1.samplesWritten + 1 }, sample)

/-- Modelled from the spec: emit up to `n` further samples of the active
effect `e`, stopping early once samples-written reaches samples-required. -/
def renderChunk (c : RenderCore) (e : SoundEffect) : Nat → RenderCore × List Nat
  | 0 => (c, [])
  | n + 1 =>
    if c.samplesWritten < c.samplesToWrite then
      let r := emitOne c e
      let r2 := renderChunk r.1 e n
      (r2.1, r.2 :: r2.2)
    else (c, [])

/-- Render the remainder of the active effect to completion. -/
def renderToEnd (c : RenderCore) (e : SoundEffect) : RenderCore × List Nat :=
  renderChunk c e (c.samplesToWrite - c.samplesWritten)

/-- Modelled from the spec: the render state installed for a newly activated
effect: instantaneous frequency/volume from the effect's declared values,
samples-required from `determineSampleCount`, samples-per-step =
samples-required / steps, and phase, step index and samples-written reset to
zero. -/
def initCore (rate : Int) (range mask : Nat) (e : SoundEffect) : RenderCore :=
  let n := determineSampleCount rate e.duration
  { sampleRate := rate
    sampleRange := range
    orMask := mask
    frequency := e.frequency
    volume := e.volume
    samplesToWrite := n
    samplesWritten := 0
    samplesPerStep := n / e.steps
    position := 0
    step := 0 }

/-- Activate effect `e` with the remaining entries `rest`, resetting the
render state as `initCore` describes and marking the engine active. -/
def installEffect (s : SynthState) (e : SoundEffect) (rest : List SoundEffect) : SynthState :=
  { s with
      effect := some e
      effectBuffer := rest
      active := true
      core := initCore s.core.sampleRate s.core.sampleRange s.core.orMask e }

/-- Clear the active effect, release the queue and drop the active flag:
the engine reverts to idle. -/
def clearActive (s : SynthState) : SynthState :=
  { s with effect := none, effectBuffer := [], active := false }

/-- Modelled from the spec: `SoundEmojiSynthesizer::nextSoundEffect` —
advance to the next entry of the sequence, or revert to idle when the
sequence is exhausted. -/
def nextSoundEffect (s : SynthState) : SynthState :=
  match s.effectBuffer with
  | [] => clearActive s
  | e :: rs => installEffect s e rs

/-- The complete sample output of a single effect, rendered from a freshly
installed render state under the given configuration. -/
def effectOutput (rate : Int) (range mask : Nat) (e : SoundEffect) : List Nat :=
  (renderToEnd (initCore rate range mask e) e).2

/-- The concatenated output of a list of effects, each rendered fresh. -/
def queueOut (rate : Int) (range mask : Nat) (l : List SoundEffect) : List Nat :=
  (l.map (effectOutput rate range mask)).flatten

/-- Every sample the synthesizer will emit from state `s` onwards, until the
queue is exhausted. -/
def streamOut (s : SynthState) : List Nat :=
  match s.effect with
  | none => []
  | some e =>
    (renderToEnd s.core e).2
      ++ queueOut s.core.sampleRate s.core.sampleRange s.core.orMask s.effectBuffer

/-- Modelled from the spec: the buffer-filling loop of
`SoundEmojiSynthesizer::pull` — fill up to `slots` samples from the active
effect `e`, transparently crossing effect boundaries; when the queue is
exhausted partway, the produced samples are returned as a short buffer. -/
def fillLoop : List SoundEffect → SynthState → SoundEffect → Nat → SynthState × List Nat
  | rest, s, e, slots =>
    let r := renderChunk s.core e slots
    let s1 : SynthState := { s with core := r.1 }
    let left := slots - r.2.length
    if left = 0 then (s1, r.2)
    else
      match rest with
      | [] => (clearActive s1, r.2)
      | e2 :: rs =>
        let r2 := fillLoop rs (installEffect s1 e2 rs) e2 left
        (r2.1, r.2 ++ r2.2)

/-- Modelled from the spec: `SoundEmojiSynthesizer::pull` — if idle, return
the shared zero-length buffer without doing any generation work; otherwise
produce one buffer of up to `bufferSize` samples. -/
def pull (s : SynthState) : SynthState × List Nat :=
  match s.effect with
  | none => (s, emptyBuffer)
  | some e => fillLoop s.effectBuffer s e s.bufferSize.toNat

/-- Iterate `pull` `n` times, concatenating the returned buffers. -/
def runPulls : Nat → SynthState → SynthState × List Nat
  | 0, s => (s, [])
  | n + 1, s =>
    let r := pull s
    let r2 := runPulls n r.1
    (r2.1, r.2 ++ r2.2)

/-- Modelled from the spec: `SoundEmojiSynthesizer::play` — validate that the
total byte length is a positive multiple of one `SoundEffect` record and that
no record carries `steps = 0` (both rejected with `DEVICE_INVALID_PARAMETER`
at enqueue time); on success install the new sequence, superseding any
sequence in progress, reset the render state to the first entry and mark the
engine active. -/
def play (s : SynthState) (sound : ManagedBuffer) : Int × SynthState :=
  if sound.length = 0 ∨ sound.length % sizeofSoundEffect ≠ 0 then
    (DEVICE_INVALID_PARAMETER, s)
  else if ∃ e ∈ sound.records, e.steps = 0 then
    (DEVICE_INVALID_PARAMETER, s)
  else
    match sound.records with
    | [] => (DEVICE_INVALID_PARAMETER, s)
    | e :: rs => (DEVICE_OK, installEffect s e rs)

/-- Modelled from the spec: `SoundEmojiSynthesizer::setSampleRate` — a
non-positive rate is rejected with `DEVICE_INVALID_PARAMETER`; otherwise the
new rate is stored, applying only to subsequent computations. -/
def setSampleRate (s : SynthState) (rate : Int) : Int × SynthState :=
  if rate ≤ 0 then (DEVICE_INVALID_PARAMETER, s)
  else (DEVICE_OK, { s with core := { s.core with sampleRate := rate } })

/-- Modelled from the spec: `SoundEmojiSynthesizer::setBufferSize` — a
non-positive size is rejected with `DEVICE_INVALID_PARAMETER`. -/
def setBufferSize (s : SynthState) (size : Int) : Int × SynthState :=
  if size ≤ 0 then (DEVICE_INVALID_PARAMETER, s)
  else (DEVICE_OK, { s with bufferSize := size })

/-- Modelled from the spec: `SoundEmojiSynthesizer::setSampleRange`. -/
def setSampleRange (s : SynthState) (range : Nat) : Int × SynthState :=
  (DEVICE_OK, { s with core := { s.core with sampleRange := range } })

/-- Modelled from the spec: `SoundEmojiSynthesizer::setOrMask` — store the
mask that is OR'd into every subsequently emitted sample. -/
def setOrMask (s : SynthState) (mask : Nat) : Int × SynthState :=
  (DEVICE_OK, { s with core := { s.core with orMask := mask } })

/-- Modelled from the spec: the default constructor
`SoundEmojiSynthesizer(int sampleRate = EMOJI_SYNTHESIZER_SAMPLE_RATE)`.
The header supplies the default argument and the buffer-size constant; the
constructor body is in the missing source file, so the initial values are
modelled from the spec's idle state (no active effect, empty queue, silence).
The default output sample range is not specified; any positive value serves,
and the full 10-bit range 1023 is used. -/
def mkSynthesizer (sampleRate : Int := EMOJI_SYNTHESIZER_SAMPLE_RATE) : SynthState :=
  { effectBuffer := []
    effect := none
    bufferSize := EMOJI_SYNTHESIZER_BUFFER_SIZE
    active := false
    core :=
      { sampleRate := sampleRate
        sampleRange := 1023
        orMask := 0
        frequency := 0
        volume := 0
        samplesToWrite := 0
        samplesWritten := 0
        samplesPerStep := 0
        position := 0
        step := 0 } }

/-- The phase-position invariant: the position lies in the cyclic tone-print
domain `[0, EMOJI_SYNTHESIZER_TONE_WIDTH)`. -/
def posInv (c : RenderCore) : Prop :=
  0 ≤ c.position ∧ c.position < (EMOJI_SYNTHESIZER_TONE_WIDTH : ℚ)

/-- The number of sample indices in `[0, w)` that are exact multiples of the
samples-per-step value `m`, written with integer ceiling division; this counts
the step boundaries passed after `w` samples. -/
def stepHits (m w : Nat) : Nat := (w + (m - 1)) / m

/-- The synthesizer states reachable through the public interface, starting
from a freshly constructed synthesizer. -/
inductive Reachable : SynthState → Prop
  | init (rate : Int) : Reachable (mkSynthesizer rate)
  | play (s : SynthState) (sound : ManagedBuffer) :
      Reachable s → Reachable (play s sound).2
  | pull (s : SynthState) : Reachable s → Reachable (pull s).1
  | setSampleRate (s : SynthState) (rate : Int) :
      Reachable s → Reachable (setSampleRate s rate).2
  | setBufferSize (s : SynthState) (size : Int) :
      Reachable s → Reachable (setBufferSize s size).2
  | setSampleRange (s : SynthState) (range : Nat) :
      Reachable s → Reachable (setSampleRange s range).2
  | setOrMask (s : SynthState) (mask : Nat) :
      Reachable s → Reachable (setOrMask s mask).2

/-- The two execution contexts of the concurrency model: the issuing context
(calls `play()`) and the rendering context (produces `pull()` buffers). -/
inductive GateCtx
  | issuer
  | renderer
deriving DecidableEq

/-- Modelled from the spec: the state of the concurrency gate (header field
`FiberLock lock`, whose implementation lives in the CODAL framework outside
this repository): the current holder of the lock, and a counter of `play()`
installations so far (two samples are governed by the same installation
exactly when they carry the same counter value). -/
structure GateState where
  lock : Option GateCtx
  curInstall : Nat
deriving DecidableEq

/-- Observable events of the concurrency model: lock acquisition and release
by a context, a `play()` installation, and the emission of one sample into
the buffer under production, tagged with the governing installation. -/
inductive GateEv
  | acquire (c : GateCtx)
  | release (c : GateCtx)
  | install
  | emit (tag : Nat)
deriving DecidableEq

/-- Modelled from the spec: the locking discipline of the concurrency gate.
A context acquires the free lock before touching shared state; `play()`
installs a new sequence only while the issuing context holds the lock; the
rendering context emits buffer samples only while it holds the lock (it
acquires the lock for the duration of producing one `pull()` buffer). -/
inductive GateStep : GateState → GateEv → GateState → Prop
  | acquire (g : GateState) (c : GateCtx) :
      g.lock = none → GateStep g (GateEv.acquire c) { g with lock := some c }
  | release (g : GateState) (c : GateCtx) :
      g.lock = some c → GateStep g (GateEv.release c) { g with lock := none }
  | install (g : GateState) :
      g.lock = some GateCtx.issuer →
      GateStep g GateEv.install { g with curInstall := g.curInstall + 1 }
  | emit (g : GateState) :
      g.lock = some GateCtx.renderer → GateStep g (GateEv.emit g.curInstall) g

/-- A finite run of the concurrency model. -/
inductive GateTrace : GateState → List GateEv → GateState → Prop
  | nil (g : GateState) : GateTrace g [] g
  | cons {g g' g'' : GateState} {e : GateEv} {evs : List GateEv} :
      GateStep g e g' → GateTrace g' evs g'' → GateTrace g (e :: evs) g''

/-- A tone print producing constant silence, used in concrete test inputs. -/
def toneZero : TonePrint := { print := fun _ => 0 }

/-- Concrete effect: 4 ms of silence, a single step. -/
def eSilent : SoundEffect :=
  { frequency := 0, volume := 0, duration := 4, tone := toneZero, effects := [], steps := 1 }

/-- Concrete effect: zero duration with two steps. -/
def eZeroDur : SoundEffect :=
  { frequency := 0, volume := 0, duration := 0, tone := toneZero, effects := [], steps := 2 }

/-- Concrete effect: 4 ms of silence with two steps. -/
def eSteps2 : SoundEffect :=
  { frequency := 0, volume := 0, duration := 4, tone := toneZero, effects := [], steps := 2 }

/-- Concrete malformed effect: `steps = 0`. -/
def eStepsZero : SoundEffect :=
  { frequency := 0, volume := 0, duration := 4, tone := toneZero, effects := [], steps := 0 }

/-- Concrete well-aligned one-record sequence holding `eSilent`. -/
def soundA : ManagedBuffer := { length := 60, records := [eSilent] }

/-- Concrete well-aligned two-record sequence: a zero-length effect followed
by `eSilent`. -/
def soundZ : ManagedBuffer := { length := 120, records := [eZeroDur, eSilent] }

/-- Concrete well-aligned one-record sequence whose record has `steps = 0`. -/
def soundBad : ManagedBuffer := { length := 60, records := [eStepsZero] }

/-- Concrete zero-entry sequence. -/
def zeroBuf : ManagedBuffer := { length := 0, records := [] }

/-- A concrete synthesizer state in the middle of rendering some effect, used
to exercise supersession of an in-progress sequence. -/
def sMid : SynthState :=
  { effectBuffer := [eSteps2]
    effect := some eSilent
    bufferSize := EMOJI_SYNTHESIZER_BUFFER_SIZE
    active := true
    core :=
      { sampleRate := 1000
        sampleRange := 1023
        orMask := 0
        frequency := 7
        volume := 1
        samplesToWrite := 4
        samplesWritten := 2
        samplesPerStep := 4
        position := 500
        step := 0 } }

/-! ### Basic lemmas about the per-sample step -/

theorem lor_land_self (x m : Nat) : (x ||| m) &&& m = m := by
  apply Nat.eq_of_testBit_eq
  intro i
  cases hb : m.testBit i <;>
    simp [Nat.testBit_land, Nat.testBit_lor, hb]

theorem wrapPosition_eq_fract (x : ℚ) :
    wrapPosition x = 1024 * Int.fract (x / 1024) := by
  unfold wrapPosition EMOJI_SYNTHESIZER_TONE_WIDTH
  rw [Int.fract]
  push_cast
  have h : (1024 : ℚ) * (x / 1024) = x := by ring
  rw [mul_sub, h]

theorem wrapPosition_nonneg (x : ℚ) : 0 ≤ wrapPosition x := by
  rw [wrapPosition_eq_fract]
  have := Int.fract_nonneg (x / 1024)
  positivity

theorem wrapPosition_lt (x : ℚ) :
    wrapPosition x < (EMOJI_SYNTHESIZER_TONE_WIDTH : ℚ) := by
  rw [wrapPosition_eq_fract]
  have h := Int.fract_lt_one (x / 1024)
  have : (1024 : ℚ) * Int.fract (x / 1024) < 1024 * 1 := by
    exact mul_lt_mul_of_pos_left h (by norm_num)
  simpa [EMOJI_SYNTHESIZER_TONE_WIDTH] using this

theorem emitOne_sampleRate (c : RenderCore) (e : SoundEffect) :
    (emitOne c e).1.sampleRate = c.sampleRate := by
  unfold emitOne
  split <;> rfl

theorem emitOne_sampleRange (c : RenderCore) (e : SoundEffect) :
    (emitOne c e).1.sampleRange = c.sampleRange := by
  unfold emitOne
  split <;> rfl

theorem emitOne_orMask (c : RenderCore) (e : SoundEffect) :
    (emitOne c e).1.orMask = c.orMask := by
  unfold emitOne
  split <;> rfl

theorem emitOne_samplesToWrite (c : RenderCore) (e : SoundEffect) :
    (emitOne c e).1.samplesToWrite = c.samplesToWrite := by
  unfold emitOne
  split <;> rfl

theorem emitOne_samplesPerStep (c : RenderCore) (e : SoundEffect) :
    (emitOne c e).1.samplesPerStep = c.samplesPerStep := by
  unfold emitOne
  split <;> rfl

theorem emitOne_samplesWritten (c : RenderCore) (e : SoundEffect) :
    (emitOne c e).1.samplesWritten = c.samplesWritten + 1 := by
  unfold emitOne
  split <;> rfl

theorem emitOne_position (c : RenderCore) (e : SoundEffect) :
    0 ≤ (emitOne c e).1.position ∧
      (emitOne c e).1.position < (EMOJI_SYNTHESIZER_TONE_WIDTH : ℚ) := by
  unfold emitOne
  constructor
  · exact wrapPosition_nonneg _
  · exact wrapPosition_lt _

theorem emitOne_sample_or (c : RenderCore) (e : SoundEffect) :
    (emitOne c e).2 &&& c.orMask = c.orMask := by
  unfold emitOne
  split <;> exact lor_land_self _ _

/-! ### Lemmas about rendering a chunk of one effect -/

theorem renderChunk_fields (e : SoundEffect) (n : Nat) : ∀ c : RenderCore,
    (renderChunk c e n).1.sampleRate = c.sampleRate ∧
    (renderChunk c e n).1.sampleRange = c.sampleRange ∧
    (renderChunk c e n).1.orMask = c.orMask ∧
    (renderChunk c e n).1.samplesToWrite = c.samplesToWrite ∧
    (renderChunk c e n).1.samplesPerStep = c.samplesPerStep ∧
    (renderChunk c e n).1.samplesWritten =
      c.samplesWritten + (renderChunk c e n).2.length ∧
    (renderChunk c e n).2.length = min n (c.samplesToWrite - c.samplesWritten) := by
  induction n with
  | zero => intro c; simp [renderChunk]
  | succ n ih =>
    intro c
    rw [renderChunk]
    split
    case isTrue h =>
      obtain ⟨h1, h2, h3, h4, h5, h6, h7⟩ := ih (emitOne c e).1
      refine ⟨?_, ?_, ?_, ?_, ?_, ?_, ?_⟩ <;>
        simp only [h1, h2, h3, h4, h5, h6, h7, List.length_cons,
          emitOne_sampleRate, emitOne_sampleRange, emitOne_orMask,
          emitOne_samplesToWrite, emitOne_samplesPerStep, emitOne_samplesWritten]
      · omega
      · omega
    case isFalse h =>
      exact ⟨rfl, rfl, rfl, rfl, rfl, by simp, by simp; omega⟩

theorem renderChunk_length (c : RenderCore) (e : SoundEffect) (n : Nat) :
    (renderChunk c e n).2.length = min n (c.samplesToWrite - c.samplesWritten) :=
  (renderChunk_fields e n c).2.2.2.2.2.2

theorem renderToEnd_stop (c : RenderCore) (e : SoundEffect)
    (h : ¬ c.samplesWritten < c.samplesToWrite) : renderToEnd c e = (c, []) := by
  unfold renderToEnd
  have hz : c.samplesToWrite - c.samplesWritten = 0 := by omega
  rw [hz]
  rfl

theorem renderToEnd_eq_cons (c : RenderCore) (e : SoundEffect)
    (h : c.samplesWritten < c.samplesToWrite) :
    renderToEnd c e =
      ((renderToEnd (emitOne c e).1 e).1,
        (emitOne c e).2 :: (renderToEnd (emitOne c e).1 e).2) := by
  unfold renderToEnd
  have hk : c.samplesToWrite - c.samplesWritten =
      (c.samplesToWrite - c.samplesWritten - 1) + 1 := by omega
  have hk2 : (emitOne c e).1.samplesToWrite - (emitOne c e).1.samplesWritten =
      c.samplesToWrite - c.samplesWritten - 1 := by
    rw [emitOne_samplesToWrite, emitOne_samplesWritten]
    omega
  rw [hk, renderChunk, if_pos h, hk2]

theorem renderToEnd_length (c : RenderCore) (e : SoundEffect) :
    (renderToEnd c e).2.length = c.samplesToWrite - c.samplesWritten := by
  unfold renderToEnd
  rw [renderChunk_length]
  omega

theorem renderChunk_take (e : SoundEffect) (n : Nat) : ∀ c : RenderCore,
    (renderChunk c e n).2 = ((renderToEnd c e).2).take n := by
  induction n with
  | zero => intro c; simp [renderChunk]
  | succ n ih =>
    intro c
    rw [renderChunk]
    split
    case isTrue h =>
      rw [renderToEnd_eq_cons c e h]
      simp only [List.take_succ_cons]
      rw [ih]
    case isFalse h =>
      rw [renderToEnd_stop c e h]
      simp

theorem renderChunk_to_end (e : SoundEffect) (n : Nat) : ∀ c : RenderCore,
    renderToEnd (renderChunk c e n).1 e =
      ((renderToEnd c e).1, ((renderToEnd c e).2).drop n) := by
  induction n with
  | zero => intro c; simp [renderChunk]
  | succ n ih =>
    intro c
    rw [renderChunk]
    split
    case isTrue h =>
      rw [renderToEnd_eq_cons c e h]
      simp only [List.drop_succ_cons]
      rw [ih]
    case isFalse h =>
      rw [renderToEnd_stop c e h]
      simp [renderToEnd_stop c e h]

/-! ### Lemmas about the overall output stream and the pull loop -/

theorem queueOut_nil (rate : Int) (range mask : Nat) :
    queueOut rate range mask [] = [] := rfl

theorem queueOut_cons (rate : Int) (range mask : Nat) (e : SoundEffect)
    (l : List SoundEffect) :
    queueOut rate range mask (e :: l) =
      effectOutput rate range mask e ++ queueOut rate range mask l := by
  simp [queueOut]

theorem streamOut_none (s : SynthState) (h : s.effect = none) : streamOut s = [] := by
  simp [streamOut, h]

theorem streamOut_some (s : SynthState) (e : SoundEffect) (h : s.effect = some e) :
    streamOut s = (renderToEnd s.core e).2
      ++ queueOut s.core.sampleRate s.core.sampleRange s.core.orMask s.effectBuffer := by
  simp [streamOut, h]

theorem installEffect_streamOut (s : SynthState) (e : SoundEffect)
    (rest : List SoundEffect) :
    streamOut (installEffect s e rest) =
      queueOut s.core.sampleRate s.core.sampleRange s.core.orMask (e :: rest) := by
  rw [streamOut_some (installEffect s e rest) e rfl, queueOut_cons]
  rfl

theorem effectOutput_length (rate : Int) (range mask : Nat) (e : SoundEffect) :
    (effectOutput rate range mask e).length = determineSampleCount rate e.duration := by
  unfold effectOutput
  rw [renderToEnd_length]
  rfl

theorem fillLoop_spec :
    ∀ (rest : List SoundEffect) (s : SynthState) (e : SoundEffect) (slots : Nat),
      s.effect = some e → s.effectBuffer = rest →
      (fillLoop rest s e slots).2 = (streamOut s).take slots ∧
      streamOut (fillLoop rest s e slots).1 = (streamOut s).drop slots ∧
      (fillLoop rest s e slots).1.core.sampleRate = s.core.sampleRate ∧
      (fillLoop rest s e slots).1.core.sampleRange = s.core.sampleRange ∧
      (fillLoop rest s e slots).1.core.orMask = s.core.orMask ∧
      (fillLoop rest s e slots).1.bufferSize = s.bufferSize ∧
      ((streamOut s).length < slots → (fillLoop rest s e slots).1.effect = none) := by
  intro rest
  induction rest with
  | nil =>
    intro s e slots hs hb
    have hso : streamOut s = (renderToEnd s.core e).2 := by
      rw [streamOut_some s e hs, hb, queueOut_nil, List.append_nil]
    have hR := renderToEnd_length s.core e
    have hlen := renderChunk_length s.core e slots
    obtain ⟨f1, f2, f3, f4, f5, f6, f7⟩ := renderChunk_fields e slots s.core
    simp only [fillLoop]
    split
    case isTrue hz =>
      have hsl : slots ≤ s.core.samplesToWrite - s.core.samplesWritten := by omega
      refine ⟨?_, ?_, f1, f2, f3, rfl, ?_⟩
      · rw [hso, renderChunk_take]
      · have hst : streamOut { s with core := (renderChunk s.core e slots).1 } =
            (renderToEnd (renderChunk s.core e slots).1 e).2 := by
          rw [streamOut_some { s with core := (renderChunk s.core e slots).1 } e hs]
          dsimp only
          rw [hb, queueOut_nil, List.append_nil]
        rw [hst, hso]
        have := congrArg Prod.snd (renderChunk_to_end e slots s.core)
        exact this
      · intro hlt
        rw [hso] at hlt
        omega
    case isFalse hz =>
      have hrem : s.core.samplesToWrite - s.core.samplesWritten < slots := by omega
      have hr2 : (renderChunk s.core e slots).2 = (renderToEnd s.core e).2 := by
        rw [renderChunk_take, List.take_of_length_le]
        omega
      refine ⟨?_, ?_, f1, f2, f3, rfl, fun _ => rfl⟩
      · rw [hso, hr2, List.take_of_length_le]
        omega
      · rw [streamOut_none _ rfl, hso, List.drop_eq_nil_of_le]
        omega
  | cons e2 rs ih =>
    intro s e slots hs hb
    have hso : streamOut s = (renderToEnd s.core e).2
        ++ queueOut s.core.sampleRate s.core.sampleRange s.core.orMask (e2 :: rs) := by
      rw [streamOut_some s e hs, hb]
    have hR := renderToEnd_length s.core e
    have hlen := renderChunk_length s.core e slots
    obtain ⟨f1, f2, f3, f4, f5, f6, f7⟩ := renderChunk_fields e slots s.core
    simp only [fillLoop]
    split
    case isTrue hz =>
      have hsl : slots ≤ s.core.samplesToWrite - s.core.samplesWritten := by omega
      refine ⟨?_, ?_, f1, f2, f3, rfl, ?_⟩
      · rw [hso, List.take_append_eq_append_take, renderChunk_take]
        have h0 : slots - (renderToEnd s.core e).2.length = 0 := by omega
        rw [h0]
        simp
      · have hst : streamOut { s with core := (renderChunk s.core e slots).1 } =
            (renderToEnd (renderChunk s.core e slots).1 e).2
              ++ queueOut s.core.sampleRate s.core.sampleRange s.core.orMask (e2 :: rs) := by
          rw [streamOut_some { s with core := (renderChunk s.core e slots).1 } e hs]
          dsimp only
          rw [f1, f2, f3, hb]
        rw [hst, hso, List.drop_append_eq_append_drop]
        have h0 : slots - (renderToEnd s.core e).2.length = 0 := by omega
        rw [h0]
        have := congrArg Prod.snd (renderChunk_to_end e slots s.core)
        simp only [List.drop_zero]
        rw [this]
      · intro hlt
        rw [hso, List.length_append] at hlt
        omega
    case isFalse hz =>
      have hrem : s.core.samplesToWrite - s.core.samplesWritten < slots := by omega
      have hr2 : (renderChunk s.core e slots).2 = (renderToEnd s.core e).2 := by
        rw [renderChunk_take, List.take_of_length_le]
        omega
      have hs' : streamOut (installEffect
            { s with core := (renderChunk s.core e slots).1 } e2 rs) =
          queueOut s.core.sampleRate s.core.sampleRange s.core.orMask (e2 :: rs) := by
        rw [installEffect_streamOut]
        dsimp only
        rw [f1, f2, f3]
      obtain ⟨g1, g2, g3, g4, g5, g6, g7⟩ :=
        ih (installEffect { s with core := (renderChunk s.core e slots).1 } e2 rs) e2
          (slots - (renderChunk s.core e slots).2.length) rfl rfl
      have htkR : List.take slots (renderToEnd s.core e).2 = (renderToEnd s.core e).2 :=
        List.take_of_length_le (by omega)
      have hdrR : List.drop slots (renderToEnd s.core e).2 = [] :=
        List.drop_eq_nil_of_le (by omega)
      refine ⟨?_, ?_, ?_, ?_, ?_, ?_, ?_⟩
      · rw [g1, hs', hr2, hso, List.take_append_eq_append_take, htkR]
      · rw [g2, hs', hr2, hso, List.drop_append_eq_append_drop, hdrR, List.nil_append]
      · rw [g3]; exact f1
      · rw [g4]; exact f2
      · rw [g5]; exact f3
      · rw [g6]; rfl
      · intro hlt
        apply g7
        rw [hs']
        rw [hso, List.length_append] at hlt
        omega

theorem pull_spec (s : SynthState) :
    (pull s).2 = (streamOut s).take s.bufferSize.toNat ∧
    streamOut (pull s).1 = (streamOut s).drop s.bufferSize.toNat ∧
    (pull s).1.core.sampleRate = s.core.sampleRate ∧
    (pull s).1.core.sampleRange = s.core.sampleRange ∧
    (pull s).1.core.orMask = s.core.orMask ∧
    (pull s).1.bufferSize = s.bufferSize ∧
    ((streamOut s).length < s.bufferSize.toNat → (pull s).1.effect = none) := by
  unfold pull
  cases hs : s.effect with
  | none =>
    refine ⟨?_, ?_, rfl, rfl, rfl, rfl, fun _ => hs⟩
    · rw [streamOut_none s hs]
      simp [emptyBuffer]
    · rw [streamOut_none s hs]
      simp
  | some e => exact fillLoop_spec s.effectBuffer s e s.bufferSize.toNat hs rfl

theorem pull_idle (s : SynthState) (h : s.effect = none) :
    pull s = (s, emptyBuffer) := by
  unfold pull
  rw [h]

theorem runPulls_idle_state (n : Nat) : ∀ s : SynthState, s.effect = none →
    runPulls n s = (s, []) := by
  induction n with
  | zero => intro s _; rfl
  | succ n ih =>
    intro s h
    simp only [runPulls, pull_idle s h]
    rw [ih s h]
    simp [emptyBuffer]

theorem runPulls_spec (n : Nat) : ∀ s : SynthState,
    (runPulls n s).2 = (streamOut s).take (n * s.bufferSize.toNat) ∧
    streamOut (runPulls n s).1 = (streamOut s).drop (n * s.bufferSize.toNat) ∧
    (runPulls n s).1.core.orMask = s.core.orMask ∧
    (runPulls n s).1.bufferSize = s.bufferSize := by
  induction n with
  | zero => intro s; simp [runPulls]
  | succ n ih =>
    intro s
    obtain ⟨p1, p2, p3, p4, p5, p6, p7⟩ := pull_spec s
    obtain ⟨q1, q2, q3, q4⟩ := ih (pull s).1
    simp only [runPulls]
    refine ⟨?_, ?_, ?_, ?_⟩
    · rw [q1, p1, p2, p6, ← List.take_add]
      congr 1
      ring
    · rw [q2, p2, p6, List.drop_drop]
      congr 1
      ring
    · rw [q3, p5]
    · rw [q4, p6]

theorem runPulls_reaches_idle (n : Nat) : ∀ s : SynthState,
    (streamOut s).length + 1 ≤ n * s.bufferSize.toNat →
    (runPulls n s).1.effect = none := by
  induction n with
  | zero =>
    intro s h
    rw [Nat.zero_mul] at h
    exact absurd h (by omega)
  | succ n ih =>
    intro s h
    obtain ⟨p1, p2, p3, p4, p5, p6, p7⟩ := pull_spec s
    have hmul : (n + 1) * s.bufferSize.toNat
        = n * s.bufferSize.toNat + s.bufferSize.toNat := by ring
    rw [hmul] at h
    simp only [runPulls]
    by_cases hc : (streamOut s).length < s.bufferSize.toNat
    · have hidle := p7 hc
      rw [runPulls_idle_state n (pull s).1 hidle]
      exact hidle
    · apply ih (pull s).1
      rw [p2, p6, List.length_drop]
      omega

/-! ### Lemmas about the OR-mask on emitted samples -/

theorem renderChunk_mask (e : SoundEffect) (n : Nat) : ∀ (c : RenderCore) (x : Nat),
    x ∈ (renderChunk c e n).2 → x &&& c.orMask = c.orMask := by
  induction n with
  | zero =>
    intro c x hx
    simp [renderChunk] at hx
  | succ n ih =>
    intro c x hx
    rw [renderChunk] at hx
    split at hx
    case isTrue h =>
      simp only [List.mem_cons] at hx
      rcases hx with rfl | hx
      · exact emitOne_sample_or c e
      · have hm := ih (emitOne c e).1 x hx
        rw [emitOne_orMask] at hm
        exact hm
    case isFalse h =>
      simp at hx

/-! ### Counting step-boundary modulator applications -/

theorem emitOne_step (c : RenderCore) (e : SoundEffect) :
    (emitOne c e).1.step =
      if c.samplesWritten % c.samplesPerStep = 0 ∧ c.step + 1 < e.steps
      then c.step + 1 else c.step := by
  unfold emitOne
  split
  case isTrue h => rfl
  case isFalse h => rfl

theorem stepHits_zero (m : Nat) : stepHits m 0 = 0 := by
  unfold stepHits
  rcases Nat.eq_zero_or_pos m with h | h
  · subst h; rfl
  · rw [Nat.zero_add]
    exact Nat.div_eq_of_lt (by omega)

theorem stepHits_succ (m w : Nat) (hm : 0 < m) :
    stepHits m (w + 1) = stepHits m w + (if w % m = 0 then 1 else 0) := by
  unfold stepHits
  have hadd : w + 1 + (m - 1) = w + m := by omega
  rw [hadd, Nat.add_div_right _ hm]
  by_cases h0 : w % m = 0
  · obtain ⟨k, hk⟩ := Nat.dvd_of_mod_eq_zero h0
    subst hk
    rw [if_pos h0, Nat.mul_add_div hm, Nat.div_eq_of_lt (show m - 1 < m by omega),
      Nat.mul_div_cancel_left _ hm]
  · have hq := Nat.div_add_mod w m
    have hd : m * (w / m + 1) = m * (w / m) + m := by ring
    have hwm : w % m < m := Nat.mod_lt w hm
    have h4 : w + (m - 1) = m * (w / m + 1) + (w % m - 1) := by omega
    rw [if_neg h0, h4, Nat.mul_add_div hm,
      Nat.div_eq_of_lt (show w % m - 1 < m by omega)]

theorem renderChunk_step_inv (e : SoundEffect) (n : Nat) : ∀ c : RenderCore,
    0 < c.samplesPerStep →
    c.step = min (stepHits c.samplesPerStep c.samplesWritten) (e.steps - 1) →
    (renderChunk c e n).1.step
      = min (stepHits c.samplesPerStep (renderChunk c e n).1.samplesWritten)
          (e.steps - 1) := by
  induction n with
  | zero =>
    intro c hm hst
    simpa [renderChunk] using hst
  | succ n ih =>
    intro c hm hst
    rw [renderChunk]
    split
    case isTrue h =>
      dsimp only
      have hm' : 0 < (emitOne c e).1.samplesPerStep := by
        rw [emitOne_samplesPerStep]; exact hm
      have hst' : (emitOne c e).1.step
          = min (stepHits (emitOne c e).1.samplesPerStep
              (emitOne c e).1.samplesWritten) (e.steps - 1) := by
        rw [emitOne_samplesPerStep, emitOne_samplesWritten, emitOne_step,
          stepHits_succ _ _ hm]
        by_cases hmod : c.samplesWritten % c.samplesPerStep = 0
        · by_cases hstep : c.step + 1 < e.steps
          · rw [if_pos ⟨hmod, hstep⟩, if_pos hmod]
            omega
          · rw [if_neg (by tauto), if_pos hmod]
            omega
        · rw [if_neg (by tauto), if_neg hmod]
          omega
      have hrec := ih (emitOne c e).1 hm' hst'
      rw [emitOne_samplesPerStep] at hrec
      exact hrec
    case isFalse h =>
      exact hst

theorem renderToEnd_final_step (c : RenderCore) (e : SoundEffect)
    (hw : c.samplesWritten = 0) (hstep : c.step = 0)
    (hsps : c.samplesPerStep = c.samplesToWrite / e.steps)
    (h1 : 1 ≤ e.steps) (h2 : e.steps ≤ c.samplesToWrite) :
    (renderToEnd c e).1.step = e.steps - 1 := by
  have hmpos : 0 < c.samplesPerStep := by
    rw [hsps]
    exact (Nat.one_le_div_iff (by omega)).mpr h2
  have hms : c.samplesPerStep * e.steps ≤ c.samplesToWrite := by
    rw [hsps, Nat.mul_comm]
    exact Nat.mul_div_le c.samplesToWrite e.steps
  have hsh : e.steps ≤ stepHits c.samplesPerStep c.samplesToWrite := by
    have hineq : c.samplesPerStep * e.steps + (c.samplesPerStep - 1)
        ≤ c.samplesToWrite + (c.samplesPerStep - 1) := by omega
    have h3 : (c.samplesPerStep * e.steps + (c.samplesPerStep - 1)) / c.samplesPerStep
        ≤ (c.samplesToWrite + (c.samplesPerStep - 1)) / c.samplesPerStep :=
      Nat.div_le_div_right hineq
    rw [Nat.mul_add_div hmpos,
      Nat.div_eq_of_lt (show c.samplesPerStep - 1 < c.samplesPerStep by omega)] at h3
    unfold stepHits
    omega
  have hinv := renderChunk_step_inv e c.samplesToWrite c hmpos
    (by rw [hstep, hw, stepHits_zero]; simp)
  obtain ⟨f1, f2, f3, f4, f5, f6, f7⟩ := renderChunk_fields e c.samplesToWrite c
  have hW : (renderChunk c e c.samplesToWrite).1.samplesWritten = c.samplesToWrite := by
    rw [f6, f7, hw]
    simp
  unfold renderToEnd
  rw [hw, Nat.sub_zero, hinv, hW]
  omega

theorem streamOut_mask (s : SynthState) : ∀ x ∈ streamOut s,
    x &&& s.core.orMask = s.core.orMask := by
  intro x hx
  cases hs : s.effect with
  | none =>
    rw [streamOut_none s hs] at hx
    simp at hx
  | some e =>
    rw [streamOut_some s e hs] at hx
    rcases List.mem_append.mp hx with h | h
    · exact renderChunk_mask e _ s.core x h
    · simp only [queueOut, List.mem_flatten, List.mem_map] at h
      obtain ⟨l, ⟨e2, _, rfl⟩, hxl⟩ := h
      have hm := renderChunk_mask e2 _
        (initCore s.core.sampleRate s.core.sampleRange s.core.orMask e2) x hxl
      exact hm

/-! ### The phase-position invariant -/

theorem emitOne_posInv (c : RenderCore) (e : SoundEffect) :
    posInv (emitOne c e).1 := by
  unfold emitOne
  split <;> exact ⟨wrapPosition_nonneg _, wrapPosition_lt _⟩

theorem renderChunk_posInv (e : SoundEffect) (n : Nat) : ∀ c : RenderCore,
    posInv c → posInv (renderChunk c e n).1 := by
  induction n with
  | zero => intro c h; exact h
  | succ n ih =>
    intro c h
    rw [renderChunk]
    split
    case isTrue ht => exact ih (emitOne c e).1 (emitOne_posInv c e)
    case isFalse ht => exact h

theorem initCore_posInv (rate : Int) (range mask : Nat) (e : SoundEffect) :
    posInv (initCore rate range mask e) := by
  refine ⟨le_refl 0, ?_⟩
  show (0 : ℚ) < (EMOJI_SYNTHESIZER_TONE_WIDTH : ℚ)
  norm_num [EMOJI_SYNTHESIZER_TONE_WIDTH]

theorem fillLoop_posInv : ∀ (rest : List SoundEffect) (s : SynthState)
    (e : SoundEffect) (slots : Nat),
    posInv s.core → posInv (fillLoop rest s e slots).1.core := by
  intro rest
  induction rest with
  | nil =>
    intro s e slots h
    simp only [fillLoop]
    split
    · exact renderChunk_posInv e slots s.core h
    · exact renderChunk_posInv e slots s.core h
  | cons e2 rs ih =>
    intro s e slots h
    simp only [fillLoop]
    split
    · exact renderChunk_posInv e slots s.core h
    · exact ih _ e2 _ (initCore_posInv _ _ _ _)

theorem pull_posInv (s : SynthState) (h : posInv s.core) :
    posInv (pull s).1.core := by
  unfold pull
  cases s.effect with
  | none => exact h
  | some e => exact fillLoop_posInv s.effectBuffer s e s.bufferSize.toNat h

theorem play_posInv (s : SynthState) (sound : ManagedBuffer) (h : posInv s.core) :
    posInv (play s sound).2.core := by
  unfold play
  split
  · exact h
  · split
    · exact h
    · split
      · exact h
      · exact initCore_posInv _ _ _ _

theorem reachable_posInv (s : SynthState) (h : Reachable s) : posInv s.core := by
  induction h with
  | init rate =>
    refine ⟨le_refl 0, ?_⟩
    show (0 : ℚ) < (EMOJI_SYNTHESIZER_TONE_WIDTH : ℚ)
    norm_num [EMOJI_SYNTHESIZER_TONE_WIDTH]
  | play s sound _ ih => exact play_posInv s sound ih
  | pull s _ ih => exact pull_posInv s ih
  | setSampleRate s rate _ ih =>
    unfold setSampleRate
    split
    · exact ih
    · exact ih
  | setBufferSize s size _ ih =>
    unfold setBufferSize
    split
    · exact ih
    · exact ih
  | setSampleRange s range _ ih => exact ih
  | setOrMask s mask _ ih => exact ih

/-! ### Outcomes of play -/

theorem play_ok_conditions (s : SynthState) (sound : ManagedBuffer)
    (hok : (play s sound).1 = DEVICE_OK) :
    ¬(sound.length = 0 ∨ sound.length % sizeofSoundEffect ≠ 0) ∧
    ¬(∃ x ∈ sound.records, x.steps = 0) := by
  unfold play at hok
  by_cases c1 : sound.length = 0 ∨ sound.length % sizeofSoundEffect ≠ 0
  · rw [if_pos c1] at hok
    simp [DEVICE_INVALID_PARAMETER, DEVICE_OK] at hok
  · rw [if_neg c1] at hok
    by_cases c2 : ∃ x ∈ sound.records, x.steps = 0
    · rw [if_pos c2] at hok
      simp [DEVICE_INVALID_PARAMETER, DEVICE_OK] at hok
    · exact ⟨c1, c2⟩

theorem play_ok_records (s : SynthState) (sound : ManagedBuffer)
    (hok : (play s sound).1 = DEVICE_OK) :
    ∃ e rs, sound.records = e :: rs := by
  obtain ⟨c1, c2⟩ := play_ok_conditions s sound hok
  unfold play at hok
  rw [if_neg c1, if_neg c2] at hok
  cases hrec : sound.records with
  | nil =>
    rw [hrec] at hok
    simp [DEVICE_INVALID_PARAMETER, DEVICE_OK] at hok
  | cons e rs => exact ⟨e, rs, rfl⟩

theorem play_ok_eq (s : SynthState) (sound : ManagedBuffer) (e : SoundEffect)
    (rs : List SoundEffect) (hrec : sound.records = e :: rs)
    (c1 : ¬(sound.length = 0 ∨ sound.length % sizeofSoundEffect ≠ 0))
    (c2 : ¬(∃ x ∈ sound.records, x.steps = 0)) :
    play s sound = (DEVICE_OK, installEffect s e rs) := by
  unfold play
  rw [if_neg c1, if_neg c2, hrec]

theorem play_fail_eq (s : SynthState) (sound : ManagedBuffer)
    (h : sound.length = 0 ∨ sound.length % sizeofSoundEffect ≠ 0) :
    play s sound = (DEVICE_INVALID_PARAMETER, s) := by
  unfold play
  rw [if_pos h]

theorem installEffect_congr (s₁ s₂ : SynthState) (e : SoundEffect)
    (rs : List SoundEffect)
    (h1 : s₁.core.sampleRate = s₂.core.sampleRate)
    (h2 : s₁.core.sampleRange = s₂.core.sampleRange)
    (h3 : s₁.core.orMask = s₂.core.orMask)
    (h4 : s₁.bufferSize = s₂.bufferSize) :
    installEffect s₁ e rs = installEffect s₂ e rs := by
  unfold installEffect
  ext : 2 <;> simp [initCore, h1, h2, h3, h4]

theorem play_ok_iff (s : SynthState) (sound : ManagedBuffer) :
    (play s sound).1 = DEVICE_OK ↔
      sound.length ≠ 0 ∧ sound.length % sizeofSoundEffect = 0
        ∧ sound.records ≠ [] ∧ ∀ e ∈ sound.records, e.steps ≠ 0 := by
  constructor
  · intro hok
    obtain ⟨c1, c2⟩ := play_ok_conditions s sound hok
    obtain ⟨e, rs, hrec⟩ := play_ok_records s sound hok
    push_neg at c1 c2
    exact ⟨c1.1, c1.2, by rw [hrec]; simp, c2⟩
  · rintro ⟨h1, h2, h3, h4⟩
    obtain ⟨e, rs, hrec⟩ := List.exists_cons_of_ne_nil h3
    rw [play_ok_eq s sound e rs hrec (by push_neg; exact ⟨h1, h2⟩)
      (by push_neg; exact h4)]

theorem play_status_dichotomy (s : SynthState) (sound : ManagedBuffer) :
    (play s sound).1 = DEVICE_OK ∨ (play s sound).1 = DEVICE_INVALID_PARAMETER := by
  unfold play
  split
  · exact Or.inr rfl
  · split
    · exact Or.inr rfl
    · cases hrec : sound.records with
      | nil => exact Or.inr rfl
      | cons e rs => exact Or.inl rfl

/-! ### The claims -/

/-- C1: Sample-count law.  For every enqueued `SoundEffect` with duration `D`
milliseconds rendered at sample rate `R`, the engine emits exactly
`round(D * R / 1000)` samples for that effect in total — the concatenated
output of the pulls decomposes into one segment per enqueued record, the
segment of each record `e` having exactly
`determineSampleCount R e.duration = round(D * R / 1000)` samples — possibly
spread across multiple `pull()` calls, including emitting zero samples for a
record whose rounded count is zero; the engine reaches the idle state
(no stall) once enough pulls have been issued. -/
theorem sampleCountLaw (s : SynthState) (sound : ManagedBuffer) (n : Nat)
    (hok : (play s sound).1 = DEVICE_OK)
    (hn : ((sound.records.map (fun e =>
        determineSampleCount s.core.sampleRate e.duration)).sum) + 1
      ≤ n * s.bufferSize.toNat) :
    (runPulls n (play s sound).2).2
      = (sound.records.map
          (effectOutput s.core.sampleRate s.core.sampleRange s.core.orMask)).flatten
    ∧ (∀ e ∈ sound.records,
        (effectOutput s.core.sampleRate s.core.sampleRange s.core.orMask e).length
          = determineSampleCount s.core.sampleRate e.duration)
    ∧ (runPulls n (play s sound).2).1.effect = none := by
  obtain ⟨c1, c2⟩ := play_ok_conditions s sound hok
  obtain ⟨e, rs, hrec⟩ := play_ok_records s sound hok
  have hpe := play_ok_eq s sound e rs hrec c1 c2
  have hs2 : (play s sound).2 = installEffect s e rs := by rw [hpe]
  have hstream : streamOut (installEffect s e rs)
      = queueOut s.core.sampleRate s.core.sampleRange s.core.orMask sound.records := by
    rw [installEffect_streamOut, hrec]
  have hlen : (streamOut (installEffect s e rs)).length
      = (sound.records.map (fun e =>
          determineSampleCount s.core.sampleRate e.duration)).sum := by
    rw [hstream]
    unfold queueOut
    rw [List.length_flatten, List.map_map]
    congr 1
    apply List.map_congr_left
    intro a _
    exact effectOutput_length _ _ _ a
  have hbuf : (installEffect s e rs).bufferSize = s.bufferSize := rfl
  obtain ⟨r1, r2, r3, r4⟩ := runPulls_spec n (installEffect s e rs)
  rw [hbuf] at r1
  refine ⟨?_, ?_, ?_⟩
  · rw [hs2, r1, List.take_of_length_le (by omega)]
    rw [hstream]
    rfl
  · intro e2 _
    exact effectOutput_length _ _ _ e2
  · rw [hs2]
    apply runPulls_reaches_idle
    rw [hbuf]
    omega

/-- C1 witness: a concrete two-record sequence (a zero-duration record that
contributes zero samples, followed by a 4 ms record at 1000 Hz sample rate
contributing 4 samples) delivered completely by a single pull. -/
theorem sampleCountLaw_witness :
    ((play (mkSynthesizer 1000) soundZ).1 = DEVICE_OK
      ∧ ((soundZ.records.map (fun e =>
          determineSampleCount (mkSynthesizer 1000).core.sampleRate e.duration)).sum) + 1
        ≤ 1 * (mkSynthesizer 1000).bufferSize.toNat)
    ∧ ((runPulls 1 (play (mkSynthesizer 1000) soundZ).2).2
        = (soundZ.records.map (effectOutput (mkSynthesizer 1000).core.sampleRate
            (mkSynthesizer 1000).core.sampleRange
            (mkSynthesizer 1000).core.orMask)).flatten
      ∧ (∀ e ∈ soundZ.records,
          (effectOutput (mkSynthesizer 1000).core.sampleRate
            (mkSynthesizer 1000).core.sampleRange
            (mkSynthesizer 1000).core.orMask e).length
            = determineSampleCount (mkSynthesizer 1000).core.sampleRate e.duration)
      ∧ (runPulls 1 (play (mkSynthesizer 1000) soundZ).2).1.effect = none) :=
  ⟨⟨by decide, by decide⟩,
    sampleCountLaw (mkSynthesizer 1000) soundZ 1 (by decide) (by decide)⟩

/-- C2 counterexample: the claim as stated fails on a zero-duration effect
with `steps = 2`: it renders to completion emitting no samples, so no step
boundary is ever crossed and the step index stays 0 instead of reaching
`steps - 1 = 1`; no modulator re-evaluation can occur. -/
theorem stepBoundaryCount_counterexample :
    (renderToEnd (installEffect (mkSynthesizer 1000) eZeroDur []).core eZeroDur).1.step
        = 0
    ∧ eZeroDur.steps - 1 = 1 := by
  exact ⟨by decide, by decide⟩

/-- C2 (amended): for every effect with `steps = s >= 1` whose required sample
count is at least `s` (equivalently, samples-per-step >= 1) rendered to
completion from a fresh installation, the step index — which is incremented
exactly once per step-boundary modulator re-evaluation and starts at 0 —
ends at exactly `s - 1`: the tone-effect modulators are re-evaluated at
exactly `s - 1` step boundaries. -/
theorem stepBoundaryCount_amended (s : SynthState) (e : SoundEffect)
    (rest : List SoundEffect) (h1 : 1 ≤ e.steps)
    (h2 : e.steps ≤ determineSampleCount s.core.sampleRate e.duration) :
    (installEffect s e rest).core.step = 0 ∧
    (renderToEnd (installEffect s e rest).core e).1.step = e.steps - 1 := by
  refine ⟨rfl, ?_⟩
  exact renderToEnd_final_step _ e rfl rfl rfl h1 h2

/-- C2 witness: a 4 ms effect with two steps at 1000 Hz sample rate (4
required samples, samples-per-step 2) passes through exactly one step
boundary. -/
theorem stepBoundaryCount_witness :
    (1 ≤ eSteps2.steps
      ∧ eSteps2.steps
        ≤ determineSampleCount (mkSynthesizer 1000).core.sampleRate eSteps2.duration)
    ∧ ((installEffect (mkSynthesizer 1000) eSteps2 []).core.step = 0
      ∧ (renderToEnd (installEffect (mkSynthesizer 1000) eSteps2 []).core eSteps2).1.step
          = eSteps2.steps - 1) :=
  ⟨⟨by decide, by decide⟩,
    stepBoundaryCount_amended (mkSynthesizer 1000) eSteps2 [] (by decide) (by decide)⟩

/-- C3: in every reachable state of the synthesizer (in particular whenever an
effect is active), the phase position lies within the cyclic tone-print
domain `[0, 1024)`: each per-sample advance is wrapped modulo the domain
width, so the invariant holds for the entire lifetime of every effect. -/
theorem phasePositionInvariant (s : SynthState) (h : Reachable s)
    (_ha : s.active = true) :
    0 ≤ s.core.position ∧ s.core.position < (EMOJI_SYNTHESIZER_TONE_WIDTH : ℚ) :=
  reachable_posInv s h

/-- C3 witness: the reachable state immediately after playing a one-record
sequence is active, and its phase position is inside the domain. -/
theorem phasePositionInvariant_witness :
    (Reachable (play (mkSynthesizer 1000) soundA).2
      ∧ (play (mkSynthesizer 1000) soundA).2.active = true)
    ∧ (0 ≤ (play (mkSynthesizer 1000) soundA).2.core.position
      ∧ (play (mkSynthesizer 1000) soundA).2.core.position
          < (EMOJI_SYNTHESIZER_TONE_WIDTH : ℚ)) :=
  ⟨⟨Reachable.play (mkSynthesizer 1000) soundA (Reachable.init 1000), by decide⟩,
    phasePositionInvariant (play (mkSynthesizer 1000) soundA).2
      (Reachable.play (mkSynthesizer 1000) soundA (Reachable.init 1000)) (by decide)⟩

/-- C4 counterexample: a non-empty, well-aligned one-record sequence whose
record carries `steps = 0` is rejected with `DEVICE_INVALID_PARAMETER`, so
`play` does not fail exactly on the length conditions alone. -/
theorem playValidation_counterexample :
    (play (mkSynthesizer 1000) soundBad).1 = DEVICE_INVALID_PARAMETER
    ∧ soundBad.length ≠ 0 ∧ soundBad.length % sizeofSoundEffect = 0 :=
  ⟨by decide, by decide, by decide⟩

/-- C4 (amended): for a coherently decoded sequence, `play` fails with
`DEVICE_INVALID_PARAMETER` exactly when the total byte length is zero, or not
a whole multiple of one `SoundEffect` record, or some record carries
`steps = 0`; it succeeds with `DEVICE_OK` for every non-empty, well-aligned
sequence all of whose records have `steps >= 1`. -/
theorem playValidation_amended (s : SynthState) (sound : ManagedBuffer)
    (hw : sound.length = sizeofSoundEffect * sound.records.length) :
    ((play s sound).1 = DEVICE_INVALID_PARAMETER
      ↔ sound.length = 0 ∨ sound.length % sizeofSoundEffect ≠ 0
        ∨ ∃ e ∈ sound.records, e.steps = 0)
    ∧ ((play s sound).1 = DEVICE_OK
      ↔ sound.length ≠ 0 ∧ sound.length % sizeofSoundEffect = 0
        ∧ ∀ e ∈ sound.records, e.steps ≠ 0) := by
  have hmod : sound.length % sizeofSoundEffect = 0 := by
    rw [hw]
    exact Nat.mul_mod_right _ _
  have hok2 : (play s sound).1 = DEVICE_OK
      ↔ sound.length ≠ 0 ∧ sound.length % sizeofSoundEffect = 0
        ∧ ∀ e ∈ sound.records, e.steps ≠ 0 := by
    rw [play_ok_iff]
    constructor
    · rintro ⟨a, b, _, d⟩
      exact ⟨a, b, d⟩
    · rintro ⟨a, b, d⟩
      refine ⟨a, b, ?_, d⟩
      intro hnil
      apply a
      rw [hw, hnil]
      rfl
  refine ⟨?_, hok2⟩
  constructor
  · intro hinv
    have hno : ¬ (play s sound).1 = DEVICE_OK := by
      rw [hinv]
      decide
    rw [hok2] at hno
    push_neg at hno
    by_cases ha : sound.length = 0
    · exact Or.inl ha
    · exact Or.inr (Or.inr (hno ha hmod))
  · intro hr
    rcases play_status_dichotomy s sound with hok | hinv
    · exfalso
      obtain ⟨a, b, d⟩ := hok2.mp hok
      rcases hr with h | h | h
      · exact a h
      · exact h b
      · obtain ⟨x, hx, hx0⟩ := h
        exact d x hx hx0
    · exact hinv

/-- C4 witness: a coherent one-record sequence with `steps = 1` satisfies the
decoding hypothesis, and the amended equivalences hold for it. -/
theorem playValidation_witness :
    (soundA.length = sizeofSoundEffect * soundA.records.length)
    ∧ (((play (mkSynthesizer 1000) soundA).1 = DEVICE_INVALID_PARAMETER
        ↔ soundA.length = 0 ∨ soundA.length % sizeofSoundEffect ≠ 0
          ∨ ∃ e ∈ soundA.records, e.steps = 0)
      ∧ ((play (mkSynthesizer 1000) soundA).1 = DEVICE_OK
        ↔ soundA.length ≠ 0 ∧ soundA.length % sizeofSoundEffect = 0
          ∧ ∀ e ∈ soundA.records, e.steps ≠ 0)) :=
  ⟨by decide, playValidation_amended (mkSynthesizer 1000) soundA (by decide)⟩

/-- C5: whenever the synthesizer is idle (no active effect — with the queue
represented by `effectBuffer`, idleness coincides with `effect = none`),
`pull()` returns the shared zero-length buffer with the state unchanged,
performing no generation work; in particular `play()` of a zero-entry
sequence is rejected without touching the state, so the next `pull()` again
returns the shared empty buffer rather than erroring or stalling. -/
theorem idlePull (s : SynthState) (h : s.effect = none) (z : ManagedBuffer)
    (hz : z.length = 0) :
    pull s = (s, emptyBuffer) ∧ (play s z).2 = s
      ∧ pull ((play s z).2) = (s, emptyBuffer) := by
  have hfail := play_fail_eq s z (Or.inl hz)
  refine ⟨pull_idle s h, by rw [hfail], ?_⟩
  rw [hfail]
  exact pull_idle s h

/-- C5 witness: the freshly constructed synthesizer is idle, and the
zero-entry sequence has length zero. -/
theorem idlePull_witness :
    ((mkSynthesizer 44100).effect = none ∧ zeroBuf.length = 0)
    ∧ (pull (mkSynthesizer 44100) = (mkSynthesizer 44100, emptyBuffer)
      ∧ (play (mkSynthesizer 44100) zeroBuf).2 = mkSynthesizer 44100
      ∧ pull ((play (mkSynthesizer 44100) zeroBuf).2)
          = (mkSynthesizer 44100, emptyBuffer)) :=
  ⟨⟨rfl, rfl⟩, idlePull (mkSynthesizer 44100) rfl zeroBuf rfl⟩

/-- C6: a successful `play()` fully replaces any in-progress sequence
(last-writer-wins): the resulting state — and therefore every sample produced
by every subsequent `pull()` — coincides with the result of issuing the same
`play()` on a synthesizer with the same configuration but no in-progress
sequence at all, so no sample generated after the call originates from the
discarded sequence. -/
theorem playReplaces (s₁ s₂ : SynthState) (sound : ManagedBuffer)
    (h1 : s₁.core.sampleRate = s₂.core.sampleRate)
    (h2 : s₁.core.sampleRange = s₂.core.sampleRange)
    (h3 : s₁.core.orMask = s₂.core.orMask)
    (h4 : s₁.bufferSize = s₂.bufferSize)
    (hok : (play s₁ sound).1 = DEVICE_OK) :
    play s₁ sound = play s₂ sound
    ∧ ∀ n, runPulls n (play s₁ sound).2 = runPulls n (play s₂ sound).2 := by
  obtain ⟨c1, c2⟩ := play_ok_conditions s₁ sound hok
  obtain ⟨e, rs, hrec⟩ := play_ok_records s₁ sound hok
  have hp1 := play_ok_eq s₁ sound e rs hrec c1 c2
  have hp2 := play_ok_eq s₂ sound e rs hrec c1 c2
  have hinst := installEffect_congr s₁ s₂ e rs h1 h2 h3 h4
  constructor
  · rw [hp1, hp2, hinst]
  · intro n
    rw [hp1, hp2, hinst]

/-- C6 witness: `sMid` is mid-way through rendering an old sequence; playing
`soundA` on it gives the same state and the same future pulls as playing
`soundA` on a fresh synthesizer with the same configuration. -/
theorem playReplaces_witness :
    (sMid.core.sampleRate = (mkSynthesizer 1000).core.sampleRate
      ∧ sMid.core.sampleRange = (mkSynthesizer 1000).core.sampleRange
      ∧ sMid.core.orMask = (mkSynthesizer 1000).core.orMask
      ∧ sMid.bufferSize = (mkSynthesizer 1000).bufferSize
      ∧ (play sMid soundA).1 = DEVICE_OK)
    ∧ (play sMid soundA = play (mkSynthesizer 1000) soundA
      ∧ ∀ n, runPulls n (play sMid soundA).2
          = runPulls n (play (mkSynthesizer 1000) soundA).2) :=
  ⟨⟨rfl, rfl, rfl, rfl, by decide⟩,
    playReplaces sMid (mkSynthesizer 1000) soundA rfl rfl rfl rfl (by decide)⟩

/-- C7: after `setOrMask(m)`, every sample emitted by any number of
subsequent `pull()` calls is the clipped, volume-scaled amplitude bitwise
OR'd with `m` (that is how `emitOne` produces it), so all bits set in `m` are
set in every output sample irrespective of the waveform. -/
theorem orMaskForcesBits (s : SynthState) (m n x : Nat)
    (hx : x ∈ (runPulls n (setOrMask s m).2).2) : x &&& m = m := by
  obtain ⟨r1, r2, r3, r4⟩ := runPulls_spec n (setOrMask s m).2
  rw [r1] at hx
  have hx2 : x ∈ streamOut (setOrMask s m).2 := List.take_subset _ _ hx
  exact streamOut_mask (setOrMask s m).2 x hx2

/-- C7 witness: with `setOrMask 0x8000 = 32768` installed while a silent
effect is playing, the emitted samples all equal 32768, and bit 15 is set. -/
theorem orMaskForcesBits_witness :
    (32768 ∈ (runPulls 1 (setOrMask (play (mkSynthesizer 1000) soundA).2 32768).2).2)
    ∧ 32768 &&& 32768 = 32768 :=
  ⟨by decide,
    orMaskForcesBits (play (mkSynthesizer 1000) soundA).2 32768 1 32768 (by decide)⟩

/-- C8: `setSampleRate(r)` with `r <= 0` and `setBufferSize(v)` with `v <= 0`
each fail with `DEVICE_INVALID_PARAMETER` leaving the state untouched; for
every positive argument they succeed with `DEVICE_OK`, and the resulting
state differs from the old one in exactly that configuration field — the
change applies only prospectively, never rescaling in-flight render state. -/
theorem configSetters (s : SynthState) (r v : Int) :
    (r ≤ 0 → setSampleRate s r = (DEVICE_INVALID_PARAMETER, s))
    ∧ (0 < r → setSampleRate s r
        = (DEVICE_OK, { s with core := { s.core with sampleRate := r } }))
    ∧ (v ≤ 0 → setBufferSize s v = (DEVICE_INVALID_PARAMETER, s))
    ∧ (0 < v → setBufferSize s v = (DEVICE_OK, { s with bufferSize := v })) := by
  refine ⟨?_, ?_, ?_, ?_⟩
  · intro h
    unfold setSampleRate
    rw [if_pos h]
  · intro h
    unfold setSampleRate
    rw [if_neg (by omega)]
  · intro h
    unfold setBufferSize
    rw [if_pos h]
  · intro h
    unfold setBufferSize
    rw [if_neg (by omega)]

/-- C8 witness: a negative sample rate is rejected without changing the
state, and a positive buffer size is stored, changing only that field. -/
theorem configSetters_witness :
    ((-1 : Int) ≤ 0 ∧ (0 : Int) < 3)
    ∧ setSampleRate (mkSynthesizer 1000) (-1)
        = (DEVICE_INVALID_PARAMETER, mkSynthesizer 1000)
    ∧ setBufferSize (mkSynthesizer 1000) 3
        = (DEVICE_OK, { mkSynthesizer 1000 with bufferSize := 3 }) :=
  ⟨⟨by decide, by decide⟩,
    (configSetters (mkSynthesizer 1000) (-1) 3).1 (by decide),
    (configSetters (mkSynthesizer 1000) (-1) 3).2.2.2 (by decide)⟩

/-- C9: while the rendering context holds the concurrency gate for the
duration of producing one `pull()` buffer (it does not release it anywhere in
the window), no `play()` installation can occur, and every sample emitted in
the window is governed by the same installation — the one current when the
buffer production began — so no single buffer mixes samples governed by two
different `play()` installations. -/
theorem gateExcludesMidBufferInstall : ∀ (g : GateState) (evs : List GateEv)
    (g' : GateState), GateTrace g evs g' →
    g.lock = some GateCtx.renderer →
    GateEv.release GateCtx.renderer ∉ evs →
    GateEv.install ∉ evs ∧ ∀ t, GateEv.emit t ∈ evs → t = g.curInstall := by
  intro g evs g' ht
  induction ht with
  | nil g => exact fun _ _ => ⟨by simp, by simp⟩
  | cons hstep htrace ih =>
    intro hl hr
    cases hstep with
    | acquire c hlock =>
      rw [hl] at hlock
      exact Option.noConfusion hlock
    | release c hlock =>
      rw [hl] at hlock
      injection hlock with hc
      subst hc
      exact absurd (List.mem_cons_self _ _) hr
    | install hlock =>
      rw [hl] at hlock
      injection hlock with hc
      exact GateCtx.noConfusion hc
    | emit hlock =>
      obtain ⟨ih1, ih2⟩ := ih hl (fun hm => hr (List.mem_cons_of_mem _ hm))
      constructor
      · intro hmem
        rcases List.mem_cons.mp hmem with h | h
        · exact GateEv.noConfusion h
        · exact ih1 h
      · intro t hmem
        rcases List.mem_cons.mp hmem with h | h
        · injection h
        · exact ih2 t h

/-- C9 witness: a two-sample emission window held by the renderer, with no
release and no installation; both samples carry the current installation
tag. -/
theorem gateExcludesMidBufferInstall_witness :
    (GateTrace { lock := some GateCtx.renderer, curInstall := 5 }
        [GateEv.emit 5, GateEv.emit 5] { lock := some GateCtx.renderer, curInstall := 5 }
      ∧ ({ lock := some GateCtx.renderer, curInstall := 5 } : GateState).lock
          = some GateCtx.renderer
      ∧ GateEv.release GateCtx.renderer ∉ [GateEv.emit 5, GateEv.emit 5])
    ∧ (GateEv.install ∉ [GateEv.emit 5, GateEv.emit 5]
      ∧ ∀ t, GateEv.emit t ∈ [GateEv.emit 5, GateEv.emit 5] → t = 5) := by
  have htr : GateTrace { lock := some GateCtx.renderer, curInstall := 5 }
      [GateEv.emit 5, GateEv.emit 5]
      { lock := some GateCtx.renderer, curInstall := 5 } :=
    GateTrace.cons (GateStep.emit _ rfl)
      (GateTrace.cons (GateStep.emit _ rfl) (GateTrace.nil _))
  exact ⟨⟨htr, rfl, by decide⟩,
    gateExcludesMidBufferInstall _ _ _ htr rfl (by decide)⟩

/-- C10: a synthesizer constructed with no arguments defaults to a sample
rate of 44100 samples per second and an output buffer size of 512 samples,
and the tone-print cyclic domain width is fixed at 1024 positions. -/
theorem defaultConfiguration :
    (mkSynthesizer).core.sampleRate = 44100
    ∧ (mkSynthesizer).bufferSize = 512
    ∧ EMOJI_SYNTHESIZER_TONE_WIDTH = 1024 :=
  ⟨rfl, rfl, rfl⟩

end SoundEmoji
